import Mathlib

/-!
Verification of the hook-executor event broker (package `hookexecutor`,
file `executor.go`).

The broker bridges an XMPP chat session to a pool of hook clients over a
length-prefixed TCP protocol.  This file gives a shallow embedding of the
parts of the code the claims are about:

* the wire framing (`WriteMessage` / `ReadMessage`), with the external
  msgpack codec modelled as an explicit injective serializer;
* the event loop (`processEvents`) as a step function over an explicit
  `Executor` state, with the Go channels replaced by an event trace and
  each client's buffered channel replaced by a list together with a
  capacity bound;
* the broadcast / pruning policy (`sendMessage`);
* the per-connection reader and writer dispatch (`clientReader`,
  `clientWriter`) as one-iteration step functions.

Go `nil` maps are modelled as the empty association list; a Go buffered
channel of capacity `cap` holding messages is modelled as a `List Message`
(front = oldest) on which a non-blocking send succeeds exactly when the
list's length is below `cap`.
-/

/-- Constant block of `executor.go` (`DefaultClientBufferSize` is the
per-client inbound queue capacity). -/
def DefaultClientBufferSize : Nat := 8

/-- Maximum encoded message length accepted on the wire (`4 * 1024`). -/
def DefaultMessageLengthCap : Nat := 4 * 1024

/-- Heartbeat write/read deadline, in seconds (`10 * time.Second`). -/
def DefaultHeartbeatTimeout : Nat := 10

/-- Heartbeat ticker interval, in seconds (`5 * time.Second`). -/
def DefaultHeartbeatTrigger : Nat := 5

/-- Go struct `IncomingEvent`: a chat-origin event pushed by the XMPP
layer (`Type string; Data map[string]string`).  The `Data` map is an
association list; Go's `nil` map is `[]`. -/
structure IncomingEvent where
  «Type» : String
  Data : List (String × String)
deriving DecidableEq, Repr

/-- Go struct `Message`: an `IncomingEvent` (embedded pointer, flattened
here) together with a broker-assigned sequence number `ID int`. -/
structure Message where
  «Type» : String
  Data : List (String × String)
  ID : Int
deriving DecidableEq, Repr

/-- Modelled from the external msgpack codec (`github.com/ugorji/go/codec`,
not part of this repository): serialization of one string as a token count
followed by one token per character.  The repository's own contribution to
the wire format is the length-prefixed framing in `WriteMessage` and
`ReadMessage`; the codec itself is modelled as this explicit injective
serializer over `List Nat` tokens. -/
def encStr (s : String) : List Nat :=
  s.data.length :: s.data.map Char.toNat

/-- Decoder matching `encStr`: reads a count and then that many character
tokens, returning the string and the unconsumed remainder. -/
def decStr : List Nat → Option (String × List Nat)
  | [] => none
  | n :: rest =>
    if n ≤ rest.length then
      some (String.mk ((rest.take n).map Char.ofNat), rest.drop n)
    else
      none

/-- Modelled msgpack serialization of one string-to-string mapping: a pair
count followed by the encoded key/value strings in order. -/
def encData (d : List (String × String)) : List Nat :=
  d.length :: (d.map (fun p => encStr p.1 ++ encStr p.2)).flatten

/-- Decoder for `n` consecutive key/value string pairs. -/
def decPairs : Nat → List Nat → Option (List (String × String) × List Nat)
  | 0, l => some ([], l)
  | n + 1, l => do
    let (k, l1) ← decStr l
    let (v, l2) ← decStr l1
    let (ps, l3) ← decPairs n l2
    some ((k, v) :: ps, l3)

/-- Decoder matching `encData`. -/
def decData : List Nat → Option (List (String × String) × List Nat)
  | [] => none
  | n :: rest => decPairs n rest

/-- Modelled msgpack serialization of one signed integer: a sign tag
followed by the magnitude. -/
def encInt (i : Int) : List Nat :=
  if i < 0 then [0, (-i).toNat] else [1, i.toNat]

/-- Decoder matching `encInt`. -/
def decInt : List Nat → Option (Int × List Nat)
  | t :: n :: rest =>
    if t = 0 then some (-(n : Int), rest)
    else if t = 1 then some ((n : Int), rest)
    else none
  | _ => none

/-- Modelled msgpack encoding of a `Message`: the three exported fields
`Type`, `Data`, `ID` in declaration order (the ugorji codec serializes the
embedded `IncomingEvent`'s fields inline). -/
def msgpackEncode (m : Message) : List Nat :=
  encStr m.«Type» ++ encData m.Data ++ encInt m.ID

/-- Modelled msgpack decoding of a `Message`; returns the decoded message
and the unconsumed remainder of the buffer (the Go decoder stops after one
value). -/
def msgpackDecode (l : List Nat) : Option (Message × List Nat) := do
  let (t, l1) ← decStr l
  let (d, l2) ← decData l1
  let (i, l3) ← decInt l2
  some (⟨t, d, i⟩, l3)

/-- Go `WriteMessage(conn, timeout, msg)`: encode the message, reject it
when the encoded body exceeds `DefaultMessageLengthCap` (before anything is
written), otherwise emit the 2-byte big-endian length prefix followed by
the body.  The returned list is the full byte sequence written to the
connection; `Except.error` means nothing was written. -/
def WriteMessage (msg : Message) : Except String (List Nat) :=
  let buf := msgpackEncode msg
  let length := buf.length
  if length > DefaultMessageLengthCap then
    Except.error "message is too long"
  else
    let lv := length % 65536
    Except.ok ([lv / 256, lv % 256] ++ buf)

/-- Go `ReadMessage(conn, timeout)`: read a 2-byte big-endian length
prefix, reject a declared length above `DefaultMessageLengthCap` before
consuming any payload, otherwise consume exactly that many payload tokens
and decode them.  The input list is the connection's incoming stream; the
second component of the result is the part of the stream left unconsumed. -/
def ReadMessage (input : List Nat) : Except String Message × List Nat :=
  match input with
  | b0 :: b1 :: rest =>
    let length := (b0 % 256) * 256 + b1 % 256
    if length > DefaultMessageLengthCap then
      (Except.error "message is too long", rest)
    else if rest.length < length then
      (Except.error "unexpected EOF", [])
    else
      match msgpackDecode (rest.take length) with
      | some (m, _) => (Except.ok m, rest.drop length)
      | none => (Except.error "decode error", rest.drop length)
  | _ => (Except.error "short read", [])

/-- Go struct `clientInfo` as it figures in the registry: the client's
bounded inbound queue (`inbox chan *Message`, modelled as the list of
queued messages) plus a model-level identifier `cid` standing for the
channel's identity, used to track a registration across registry
mutations. -/
structure clientInfo where
  cid : Nat
  inbox : List Message
deriving DecidableEq, Repr

/-- Go struct `entity.Message` (library `xippo/entity`) restricted to the
fields `SendMessageToBot` sets: the stanza type, destination and body. -/
structure entityMSG where
  typ : String
  To : String
  Body : String
deriving DecidableEq, Repr

/-- Go `Executor` state owned by the `processEvents` goroutine: the client
registry and the message counter.  The channels of the Go struct are
modelled by the event trace fed to `step`; `nextCid` allocates fresh
client identities, `closed` logs every `close(client.inbox)` performed by
the pruning path, and `botSent` logs every stanza handed to the XMPP
stream by `SendMessageToBot`. -/
structure Executor where
  clients : List clientInfo
  counter : Int
  nextCid : Nat
  closed : List Nat
  botSent : List entityMSG
deriving DecidableEq, Repr

/-- Go `NewExecutor`: empty registry, counter 0. -/
def initExecutor : Executor :=
  { clients := [], counter := 0, nextCid := 0, closed := [], botSent := [] }

/-- Go `SendMessageToBot`: build a groupchat stanza with the fixed
destination `golang@conference.jabber.ru` whose body is the message's
`Data` entry at key `body` (a missing key reads as `""`, Go map
semantics), and write it to the XMPP stream. -/
def SendMessageToBot (msg : Message) : entityMSG :=
  { typ := "groupchat"
    To := "golang@conference.jabber.ru"
    Body := (List.lookup "body" msg.Data).getD "" }

/-- First loop of Go `sendMessage`: walk the registry in order, attempt a
non-blocking enqueue (`select` with `default`) of `msg` into each client's
inbox, and record the registry indices of the clients whose queue was
full (`deadClientIDs`).  `idx` is the index of the first client of the
list in the registry.  Returns the registry after the enqueues together
with the dead index list (increasing, as Go appends them in order). -/
def attemptAll (cap : Nat) (msg : Message) : List clientInfo → Nat → List clientInfo × List Nat
  | [], _ => ([], [])
  | c :: cs, idx =>
    let r := attemptAll cap msg cs (idx + 1)
    if c.inbox.length < cap then
      ({ c with inbox := c.inbox ++ [msg] } :: r.1, r.2)
    else
      (c :: r.1, idx :: r.2)

/-- Second loop of Go `sendMessage`: walk the registry again with a cursor
(`currentID`) over the dead index list; a client whose index is the next
dead index has its inbox closed and is dropped, every other client is kept
(`aliveClients`).  Returns the surviving registry and the identities of
the closed inboxes, in order. -/
def pruneWalk : List clientInfo → Nat → List Nat → List clientInfo × List Nat
  | [], _, _ => ([], [])
  | c :: cs, idx, dead =>
    match dead with
    | d :: ds =>
      if idx = d then
        let r := pruneWalk cs (idx + 1) ds
        (r.1, c.cid :: r.2)
      else
        let r := pruneWalk cs (idx + 1) (d :: ds)
        (c :: r.1, r.2)
    | [] =>
      let r := pruneWalk cs (idx + 1) []
      (c :: r.1, r.2)

/-- Go `sendMessage`: broadcast `msg` to every registered client with a
non-blocking enqueue; when some queues were full, prune those
registrations and close their inboxes.  `cap` is the capacity every
client inbox was created with (`DefaultClientBufferSize` in the code,
kept as a parameter so statements can quantify over it). -/
def sendMessage (cap : Nat) (msg : Message) (s : Executor) : Executor :=
  let r := attemptAll cap msg s.clients 0
  if r.2.isEmpty then
    { s with clients := r.1 }
  else
    let pr := pruneWalk r.1 0 r.2
    { s with clients := pr.1, closed := s.closed ++ pr.2 }

/-- One input of the `processEvents` multi-way `select`: a chat-origin
event (`exc.inbox`), a control command (`exc.cmdInbox`), a registration
request (`exc.clientRequests`), or a client-originated message
(`exc.outbox`). -/
inductive LoopEvent where
  | inboxEv (e : IncomingEvent)
  | cmdEv (cmd : String)
  | clientReq
  | outboxEv (m : Message)
deriving DecidableEq, Repr

/-- One iteration of Go `processEvents`: wrap a chat-origin event with the
current counter value, broadcast it, then increment the counter; log and
discard a control command; append a fresh registration with an empty
inbox on a registration request; hand a client-originated message to
`SendMessageToBot`. -/
def step (cap : Nat) (s : Executor) (ev : LoopEvent) : Executor :=
  match ev with
  | .inboxEv e =>
    let message : Message := { «Type» := e.«Type», Data := e.Data, ID := s.counter }
    let s1 := sendMessage cap message s
    { s1 with counter := s1.counter + 1 }
  | .cmdEv _ => s
  | .clientReq =>
    { s with
      clients := s.clients ++ [{ cid := s.nextCid, inbox := [] }]
      nextCid := s.nextCid + 1 }
  | .outboxEv m =>
    { s with botSent := s.botSent ++ [SendMessageToBot m] }

/-- The event loop run over a whole trace of inputs. -/
def run (cap : Nat) (s : Executor) (evs : List LoopEvent) : Executor :=
  evs.foldl (step cap) s

/-- The messages a broadcast sequence starting at counter value `n`
produces: the events in order, the i-th wrapped with ID `n + i`. -/
def broadcastFrom : Int → List IncomingEvent → List Message
  | _, [] => []
  | n, e :: es => { «Type» := e.«Type», Data := e.Data, ID := n } :: broadcastFrom (n + 1) es

/-- The synthetic heartbeat message of Go `clientWriter`
(`&Message{&IncomingEvent{"ping", nil}, -1}`). -/
def pingMessage : Message :=
  { «Type» := "ping", Data := [], ID := -1 }

/-- One wake-up cause of the `clientWriter` `select`: a message (or the
closing of the inbox, `none`) on the client's queue, the heartbeat ticker
firing, or the stop signal. -/
inductive WriterEvent where
  | inboxMsg (m : Option Message)
  | tick
  | stopSig
deriving DecidableEq, Repr

/-- The action `clientWriter` takes on a wake-up. -/
inductive WriterAction where
  | write (deadline : Nat) (m : Message)
  | closeStopAndExit
  | exit
deriving DecidableEq, Repr

/-- One iteration of Go `clientWriter`: write a dequeued message under the
heartbeat deadline; on a closed inbox, close the stop signal and exit; on
a ticker fire, write the synthetic ping under the same deadline; on the
stop signal, exit. -/
def clientWriterStep : WriterEvent → WriterAction
  | .inboxMsg (some m) => .write DefaultHeartbeatTimeout m
  | .inboxMsg none => .closeStopAndExit
  | .tick => .write DefaultHeartbeatTimeout pingMessage
  | .stopSig => .exit

/-- Outcome of one iteration of Go `clientReader`. -/
inductive ReaderOutcome where
  | exitOnError
  | discardPong
  | forwarded (m : Message)
  | exitOnStop
deriving DecidableEq, Repr

/-- One iteration of Go `clientReader`, given the result of `ReadMessage`
and whether the connection's stop signal fires before the forward to the
shared outbox is accepted: a read error makes the reader report and exit;
a decoded `pong` is discarded; any other message is forwarded unless the
stop signal wins the `select`. -/
def clientReaderStep (readResult : Except String Message) (stopFired : Bool) : ReaderOutcome :=
  match readResult with
  | .error _ => .exitOnError
  | .ok m =>
    if m.«Type» = "pong" then .discardPong
    else if stopFired then .exitOnStop
    else .forwarded m

/-- Registry sanity invariant maintained by the event loop: client
identities are distinct, below the allocator, and their inboxes are not
yet closed. -/
def goodState (s : Executor) : Prop :=
  (s.clients.map clientInfo.cid).Nodup ∧
  (∀ c ∈ s.clients, c.cid < s.nextCid) ∧
  (∀ c ∈ s.clients, c.cid ∉ s.closed)

instance : DecidablePred goodState := fun s => by
  unfold goodState; infer_instance

/-- A message whose encoded body exceeds `DefaultMessageLengthCap`: its
`Type` alone contributes 5001 tokens. -/
def oversizeMsg : Message :=
  { «Type» := String.mk (List.replicate 5000 'a'), Data := [], ID := 0 }

/-- A concrete one-client state used as a test input: one registered
client with identity 0 and an empty inbox. -/
def oneClientState : Executor :=
  { clients := [{ cid := 0, inbox := [] }], counter := 0, nextCid := 1,
    closed := [], botSent := [] }

/-- A concrete broadcast message used as a test input. -/
def probeMsg : Message := { «Type» := "m", Data := [], ID := 0 }

/-! ### Round-trip of the modelled codec -/

theorem decStr_encStr (s : String) (r : List Nat) :
    decStr (encStr s ++ r) = some (s, r) := by
  have hlen : (s.data.map Char.toNat).length = s.data.length := List.length_map _ _
  simp only [encStr, List.cons_append, decStr]
  rw [← hlen, List.take_left, List.drop_left, if_pos (by simp), List.map_map]
  have h2 : ∀ c ∈ s.data, (Char.ofNat ∘ Char.toNat) c = id c := fun c _ => by
    simp [Char.ofNat_toNat]
  have hmap : s.data.map (Char.ofNat ∘ Char.toNat) = s.data := by
    simpa using List.map_congr_left h2
  rw [hmap]

theorem decPairs_enc (d : List (String × String)) (r : List Nat) :
    decPairs d.length ((d.map (fun p => encStr p.1 ++ encStr p.2)).flatten ++ r) =
      some (d, r) := by
  induction d generalizing r with
  | nil => simp [decPairs]
  | cons p ps ih =>
    simp only [List.map_cons, List.flatten_cons, List.length_cons, decPairs,
      List.append_assoc, decStr_encStr, Option.bind_eq_bind, Option.some_bind, ih]

theorem decData_encData (d : List (String × String)) (r : List Nat) :
    decData (encData d ++ r) = some (d, r) := by
  simp only [encData, List.cons_append, decData, decPairs_enc]

theorem decInt_encInt (i : Int) (r : List Nat) :
    decInt (encInt i ++ r) = some (i, r) := by
  by_cases h : i < 0
  · have : ((-i).toNat : Int) = -i := Int.toNat_of_nonneg (by omega)
    simp [encInt, decInt, h, this]
  · have : (i.toNat : Int) = i := Int.toNat_of_nonneg (by omega)
    simp [encInt, decInt, h, this]

theorem msgpackDecode_encode (m : Message) (r : List Nat) :
    msgpackDecode (msgpackEncode m ++ r) = some (m, r) := by
  simp only [msgpackEncode, msgpackDecode, List.append_assoc, decStr_encStr,
    decData_encData, decInt_encInt, Option.bind_eq_bind, Option.some_bind]

/-! ### Framing -/

theorem writeMessage_readMessage (msg : Message) (frame : List Nat)
    (h : WriteMessage msg = Except.ok frame) :
    ReadMessage frame = (Except.ok msg, []) := by
  unfold WriteMessage at h
  by_cases hc : (msgpackEncode msg).length > DefaultMessageLengthCap
  · simp [hc] at h
  · simp only [hc, if_false, ite_false] at h
    have hcap : (msgpackEncode msg).length ≤ 4096 := by
      simpa [DefaultMessageLengthCap] using hc
    have hmod : (msgpackEncode msg).length % 65536 = (msgpackEncode msg).length :=
      Nat.mod_eq_of_lt (by omega)
    rw [hmod] at h
    obtain rfl : ((msgpackEncode msg).length / 256 ::
        (msgpackEncode msg).length % 256 :: msgpackEncode msg) = frame := by
      simpa using h
    show ReadMessage _ = _
    rw [ReadMessage]
    have hb0 : (msgpackEncode msg).length / 256 % 256 = (msgpackEncode msg).length / 256 :=
      Nat.mod_eq_of_lt (by omega)
    have hb1 : (msgpackEncode msg).length % 256 % 256 = (msgpackEncode msg).length % 256 :=
      Nat.mod_eq_of_lt (by omega)
    have hlen : (msgpackEncode msg).length / 256 % 256 * 256 +
        (msgpackEncode msg).length % 256 % 256 = (msgpackEncode msg).length := by
      rw [hb0, hb1]; omega
    rw [hlen]
    rw [if_neg (by simp [DefaultMessageLengthCap]; omega), if_neg (by omega)]
    rw [List.take_length]
    have hdec : msgpackDecode (msgpackEncode msg) = some (msg, []) := by
      simpa using msgpackDecode_encode msg []
    rw [hdec, List.drop_length]

/-- C2: decoding the frame produced by a successful `WriteMessage` of a
`Message` yields a `Message` whose `Type`, `Data` and `ID` fields equal
those of the original, with the whole frame consumed. -/
theorem readMessage_writeMessage_roundtrip (msg : Message) (frame : List Nat)
    (h : WriteMessage msg = Except.ok frame) :
    ∃ m', (ReadMessage frame).1 = Except.ok m' ∧
      m'.«Type» = msg.«Type» ∧ m'.Data = msg.Data ∧ m'.ID = msg.ID :=
  ⟨msg, by rw [writeMessage_readMessage msg frame h], rfl, rfl, rfl⟩

/-- Witness for C2 at a concrete message and its concrete frame. -/
theorem readMessage_writeMessage_roundtrip_witness :
    ∃ m', (ReadMessage [0, 19, 7, 109, 101, 115, 115, 97, 103, 101,
        1, 4, 98, 111, 100, 121, 2, 104, 105, 1, 0]).1 = Except.ok m' ∧
      m'.«Type» = ({ «Type» := "message", Data := [("body", "hi")], ID := 0 } : Message).«Type» ∧
      m'.Data = ({ «Type» := "message", Data := [("body", "hi")], ID := 0 } : Message).Data ∧
      m'.ID = ({ «Type» := "message", Data := [("body", "hi")], ID := 0 } : Message).ID :=
  readMessage_writeMessage_roundtrip
    { «Type» := "message", Data := [("body", "hi")], ID := 0 }
    [0, 19, 7, 109, 101, 115, 115, 97, 103, 101, 1, 4, 98, 111, 100, 121, 2, 104, 105, 1, 0]
    (by rfl)

/-- C4: a frame whose 2-byte big-endian declared length exceeds 4096 makes
`ReadMessage` return an error while consuming nothing past the length
prefix (the stream after the call is exactly `rest`), and the reader loop
exits on that error, tearing the connection down. -/
theorem readMessage_oversize (b0 b1 : Nat) (rest : List Nat)
    (h : (b0 % 256) * 256 + b1 % 256 > DefaultMessageLengthCap) :
    ReadMessage (b0 :: b1 :: rest) = (Except.error "message is too long", rest) ∧
    ∀ stopFired, clientReaderStep (ReadMessage (b0 :: b1 :: rest)).1 stopFired =
      ReaderOutcome.exitOnError := by
  have hr : ReadMessage (b0 :: b1 :: rest) = (Except.error "message is too long", rest) := by
    rw [ReadMessage, if_pos h]
  exact ⟨hr, fun stopFired => by rw [hr]; rfl⟩

/-- Witness for C4 at a concrete oversize frame (declared length 65535). -/
theorem readMessage_oversize_witness :
    ReadMessage [255, 255, 1, 2, 3] = (Except.error "message is too long", [1, 2, 3]) ∧
    ∀ stopFired, clientReaderStep (ReadMessage [255, 255, 1, 2, 3]).1 stopFired =
      ReaderOutcome.exitOnError :=
  readMessage_oversize 255 255 [1, 2, 3] (by decide)

theorem encStr_length (s : String) : (encStr s).length = s.data.length + 1 := by
  simp [encStr]

theorem oversizeMsg_encode_length : (msgpackEncode oversizeMsg).length = 5004 := by
  rw [msgpackEncode, List.length_append, List.length_append, encStr_length]
  have hdata : (oversizeMsg.«Type»).data = List.replicate 5000 'a' := rfl
  rw [hdata, List.length_replicate]
  rfl

/-- C9: when the encoded body of a message exceeds 4096 tokens,
`WriteMessage` rejects it before writing anything; consequently every
frame it does emit declares (in its 2-byte big-endian prefix) exactly the
payload length, which never exceeds 4096. -/
theorem writeMessage_oversize (msg : Message) :
    (DefaultMessageLengthCap < (msgpackEncode msg).length →
      WriteMessage msg = Except.error "message is too long") ∧
    (∀ frame, WriteMessage msg = Except.ok frame →
      ∃ b0 b1 rest, frame = b0 :: b1 :: rest ∧
        (b0 % 256) * 256 + b1 % 256 = rest.length ∧
        rest.length ≤ DefaultMessageLengthCap) := by
  constructor
  · intro hlong
    unfold WriteMessage
    rw [if_pos hlong]
  · intro frame h
    unfold WriteMessage at h
    by_cases hc : (msgpackEncode msg).length > DefaultMessageLengthCap
    · simp [hc] at h
    · simp only [hc, if_false, ite_false] at h
      have hcap : (msgpackEncode msg).length ≤ 4096 := by
        simpa [DefaultMessageLengthCap] using hc
      have hmod : (msgpackEncode msg).length % 65536 = (msgpackEncode msg).length :=
        Nat.mod_eq_of_lt (by omega)
      rw [hmod] at h
      obtain rfl : ((msgpackEncode msg).length / 256 ::
          (msgpackEncode msg).length % 256 :: msgpackEncode msg) = frame := by
        simpa using h
      refine ⟨_, _, msgpackEncode msg, rfl, ?_, ?_⟩
      · have hb0 : (msgpackEncode msg).length / 256 % 256 = (msgpackEncode msg).length / 256 :=
          Nat.mod_eq_of_lt (by omega)
        rw [hb0]
        omega
      · simpa [DefaultMessageLengthCap] using hcap

/-- Witness for C9: the oversize message is rejected, and a concrete
accepted frame declares its exact payload length. -/
theorem writeMessage_oversize_witness :
    WriteMessage oversizeMsg = Except.error "message is too long" ∧
    ∃ b0 b1 rest, ([0, 5, 1, 120, 0, 1, 5] : List Nat) = b0 :: b1 :: rest ∧
      (b0 % 256) * 256 + b1 % 256 = rest.length ∧
      rest.length ≤ DefaultMessageLengthCap :=
  ⟨(writeMessage_oversize oversizeMsg).1
      (by rw [oversizeMsg_encode_length]; norm_num [DefaultMessageLengthCap]),
    (writeMessage_oversize { «Type» := "x", Data := [], ID := 5 }).2
      [0, 5, 1, 120, 0, 1, 5] (by rfl)⟩

/-! ### Broadcast and pruning -/

theorem attemptAll_dead_ge (cap : Nat) (msg : Message) :
    ∀ (cs : List clientInfo) (idx : Nat) (d : Nat),
      d ∈ (attemptAll cap msg cs idx).2 → idx ≤ d := by
  intro cs
  induction cs with
  | nil => intro idx d hd; simp [attemptAll] at hd
  | cons c cs ih =>
    intro idx d hd
    rw [attemptAll] at hd
    by_cases hc : c.inbox.length < cap
    · rw [if_pos hc] at hd
      exact Nat.le_of_succ_le (ih (idx + 1) d hd)
    · rw [if_neg hc] at hd
      rcases List.mem_cons.mp hd with h | h
      · omega
      · exact Nat.le_of_succ_le (ih (idx + 1) d h)

theorem pruneWalk_keep (c : clientInfo) (cs : List clientInfo) (idx : Nat)
    (dead : List Nat) (h : ∀ d ∈ dead, idx + 1 ≤ d) :
    pruneWalk (c :: cs) idx dead =
      (c :: (pruneWalk cs (idx + 1) dead).1, (pruneWalk cs (idx + 1) dead).2) := by
  cases dead with
  | nil => rw [pruneWalk]
  | cons d ds =>
    rw [pruneWalk]
    have : idx ≠ d := by have := h d (List.mem_cons_self d ds); omega
    rw [if_neg this]

theorem pruneWalk_drop (c : clientInfo) (cs : List clientInfo) (idx : Nat)
    (ds : List Nat) :
    pruneWalk (c :: cs) idx (idx :: ds) =
      ((pruneWalk cs (idx + 1) ds).1, c.cid :: (pruneWalk cs (idx + 1) ds).2) := by
  rw [pruneWalk, if_pos rfl]

theorem attemptAll_pruneWalk (cap : Nat) (msg : Message) :
    ∀ (cs : List clientInfo) (idx : Nat),
      pruneWalk (attemptAll cap msg cs idx).1 idx (attemptAll cap msg cs idx).2 =
        ((cs.filter fun c => c.inbox.length < cap).map
            (fun c => { c with inbox := c.inbox ++ [msg] }),
          (cs.filter fun c => cap ≤ c.inbox.length).map clientInfo.cid) := by
  intro cs
  induction cs with
  | nil => intro idx; simp [attemptAll, pruneWalk]
  | cons c cs ih =>
    intro idx
    rw [attemptAll]
    by_cases hc : c.inbox.length < cap
    · rw [if_pos hc]
      rw [pruneWalk_keep _ _ _ _ (fun d hd => attemptAll_dead_ge cap msg cs (idx + 1) d hd)]
      rw [ih (idx + 1)]
      have h1 : (c :: cs).filter (fun c => decide (c.inbox.length < cap)) =
          c :: cs.filter (fun c => decide (c.inbox.length < cap)) := by
        rw [List.filter_cons_of_pos (by simpa using hc)]
      have h2 : (c :: cs).filter (fun c => decide (cap ≤ c.inbox.length)) =
          cs.filter (fun c => decide (cap ≤ c.inbox.length)) := by
        rw [List.filter_cons_of_neg (by simpa using hc)]
      rw [h1, h2, List.map_cons]
    · rw [if_neg hc]
      rw [pruneWalk_drop]
      rw [ih (idx + 1)]
      have h1 : (c :: cs).filter (fun c => decide (c.inbox.length < cap)) =
          cs.filter (fun c => decide (c.inbox.length < cap)) := by
        rw [List.filter_cons_of_neg (by simpa using hc)]
      have h2 : (c :: cs).filter (fun c => decide (cap ≤ c.inbox.length)) =
          c :: cs.filter (fun c => decide (cap ≤ c.inbox.length)) := by
        rw [List.filter_cons_of_pos (by simpa using hc)]
      rw [h1, h2, List.map_cons]

theorem pruneWalk_nil_dead :
    ∀ (cs : List clientInfo) (idx : Nat), pruneWalk cs idx [] = (cs, []) := by
  intro cs
  induction cs with
  | nil => intro idx; rw [pruneWalk]
  | cons c cs ih => intro idx; rw [pruneWalk]; rw [ih (idx + 1)]

/-- Behaviour of one `sendMessage` call on the whole state: the registry
keeps exactly the clients whose non-blocking enqueue succeeded (in order,
with the message appended), the pruned clients' inboxes are closed in
registry order, and nothing else changes. -/
theorem sendMessage_spec (cap : Nat) (msg : Message) (s : Executor) :
    sendMessage cap msg s =
      { s with
        clients := (s.clients.filter fun c => c.inbox.length < cap).map
          (fun c => { c with inbox := c.inbox ++ [msg] }),
        closed := s.closed ++
          (s.clients.filter fun c => cap ≤ c.inbox.length).map clientInfo.cid } := by
  have key := attemptAll_pruneWalk cap msg s.clients 0
  have hfst := congrArg Prod.fst key
  have hsnd := congrArg Prod.snd key
  simp only at hfst hsnd
  simp only [sendMessage]
  by_cases he : (attemptAll cap msg s.clients 0).2.isEmpty
  · rw [if_pos he]
    have h2 : (attemptAll cap msg s.clients 0).2 = [] := by
      simpa [List.isEmpty_iff] using he
    rw [h2, pruneWalk_nil_dead] at hfst hsnd
    simp only at hfst hsnd
    rw [hfst, ← hsnd, List.append_nil]
  · rw [if_neg he]
    rw [hfst, hsnd]

/-- C10: after every broadcast the registry is exactly the subsequence of
the previously registered clients whose non-blocking enqueue succeeded,
in their original relative order, each with the broadcast message
appended to its queue. -/
theorem registry_after_broadcast (cap : Nat) (msg : Message) (s : Executor) :
    (sendMessage cap msg s).clients =
      (s.clients.filter fun c => c.inbox.length < cap).map
        (fun c => { c with inbox := c.inbox ++ [msg] }) := by
  rw [sendMessage_spec]

/-! ### Event-loop dispatch claims -/

/-- C8: a control command is only logged and discarded; the whole state —
registry, counter, queues, everything — is unchanged. -/
theorem cmd_inert (cap : Nat) (s : Executor) (cmd : String) :
    step cap s (.cmdEv cmd) = s := rfl

/-- C6: a client-originated message taken from the shared outbox invokes
the outbound chat collaborator with a groupchat stanza to the fixed
destination whose body is the message's `Data` entry at key `body`, and
nothing else of the state changes; the client-supplied ID has no effect
on the stanza. -/
theorem outbox_forwarded (cap : Nat) (s : Executor) (m : Message) :
    step cap s (.outboxEv m) = { s with botSent := s.botSent ++ [SendMessageToBot m] } ∧
    (SendMessageToBot m).typ = "groupchat" ∧
    (SendMessageToBot m).To = "golang@conference.jabber.ru" ∧
    (SendMessageToBot m).Body = (List.lookup "body" m.Data).getD "" ∧
    (∀ i : Int, SendMessageToBot { m with ID := i } = SendMessageToBot m) :=
  ⟨rfl, rfl, rfl, rfl, fun _ => rfl⟩

/-- C7: the heartbeat the writer sends on a ticker fire is exactly the
synthetic ping — `Type` `"ping"`, `ID` `-1`, no `Data` — and it is written
under `DefaultHeartbeatTimeout`, the same deadline ordinary messages are
written under. -/
theorem writer_heartbeat :
    clientWriterStep .tick = .write DefaultHeartbeatTimeout pingMessage ∧
    pingMessage.«Type» = "ping" ∧ pingMessage.ID = -1 ∧ pingMessage.Data = [] ∧
    (∀ m : Message, clientWriterStep (.inboxMsg (some m)) = .write DefaultHeartbeatTimeout m) :=
  ⟨rfl, rfl, rfl, rfl, fun _ => rfl⟩

/-- C5: a decoded message of `Type` `"pong"` is discarded with no other
effect; every other decoded message is forwarded to the shared
client-originated channel, unless the connection's stop signal fires
first, in which case the reader exits instead. -/
theorem reader_dispatch (m : Message) (stopFired : Bool) :
    (m.«Type» = "pong" → clientReaderStep (Except.ok m) stopFired = .discardPong) ∧
    (m.«Type» ≠ "pong" → stopFired = false →
      clientReaderStep (Except.ok m) stopFired = .forwarded m) ∧
    (m.«Type» ≠ "pong" → stopFired = true →
      clientReaderStep (Except.ok m) stopFired = .exitOnStop) := by
  refine ⟨fun h => by simp [clientReaderStep, h],
    fun h hs => by simp [clientReaderStep, h, hs],
    fun h hs => by simp [clientReaderStep, h, hs]⟩

/-- Witness for C5 at a concrete pong and a concrete reply message. -/
theorem reader_dispatch_witness :
    clientReaderStep (Except.ok { «Type» := "pong", Data := [], ID := 0 }) false =
      ReaderOutcome.discardPong ∧
    clientReaderStep (Except.ok { «Type» := "reply", Data := [("body", "yo")], ID := 7 }) false =
      ReaderOutcome.forwarded { «Type» := "reply", Data := [("body", "yo")], ID := 7 } ∧
    clientReaderStep (Except.ok { «Type» := "reply", Data := [("body", "yo")], ID := 7 }) true =
      ReaderOutcome.exitOnStop :=
  ⟨(reader_dispatch { «Type» := "pong", Data := [], ID := 0 } false).1 rfl,
    (reader_dispatch { «Type» := "reply", Data := [("body", "yo")], ID := 7 } false).2.1
      (by decide) rfl,
    (reader_dispatch { «Type» := "reply", Data := [("body", "yo")], ID := 7 } true).2.2
      (by decide) rfl⟩

/-! ### Fan-out to clients with room -/

theorem sendMessage_all_room (cap : Nat) (msg : Message) (s : Executor)
    (h : ∀ c ∈ s.clients, c.inbox.length < cap) :
    sendMessage cap msg s =
      { s with clients := s.clients.map fun c => { c with inbox := c.inbox ++ [msg] } } := by
  rw [sendMessage_spec]
  have h1 : s.clients.filter (fun c => decide (c.inbox.length < cap)) = s.clients :=
    List.filter_eq_self.mpr (fun c hc => by simpa using h c hc)
  have h2 : s.clients.filter (fun c => decide (cap ≤ c.inbox.length)) = [] := by
    rw [List.filter_eq_nil_iff]
    intro c hc
    simpa using Nat.not_le.mpr (h c hc)
  rw [h1, h2]
  simp

theorem run_cons (cap : Nat) (s : Executor) (ev : LoopEvent) (evs : List LoopEvent) :
    run cap s (ev :: evs) = run cap (step cap s ev) evs := rfl

theorem run_append (cap : Nat) (s : Executor) (l1 l2 : List LoopEvent) :
    run cap s (l1 ++ l2) = run cap (run cap s l1) l2 := by
  simp [run]

theorem step_inbox_all_room (cap : Nat) (e : IncomingEvent) (s : Executor)
    (h : ∀ c ∈ s.clients, c.inbox.length < cap) :
    step cap s (.inboxEv e) =
      { s with
        clients := s.clients.map fun c =>
          { c with inbox := c.inbox ++ [{ «Type» := e.«Type», Data := e.Data, ID := s.counter }] },
        counter := s.counter + 1 } := by
  simp only [step]
  rw [sendMessage_all_room cap _ s h]

/-- Effect of `K` consecutive registration requests: `K` fresh clients
with empty inboxes appended to the registry, in allocation order. -/
theorem run_clientReqs (cap : Nat) :
    ∀ (K : Nat) (s : Executor),
      run cap s (List.replicate K .clientReq) =
        { s with
          clients := s.clients ++ (List.range' s.nextCid K).map
            (fun i => { cid := i, inbox := [] }),
          nextCid := s.nextCid + K } := by
  intro K
  induction K with
  | zero => intro s; simp [run]
  | succ K ih =>
    intro s
    rw [List.replicate_succ, run_cons, ih]
    simp only [step, List.range'_succ, List.map_cons]
    simp [List.append_assoc, Nat.add_assoc, Nat.add_comm 1 K]

theorem broadcastFrom_cons (n : Int) (e : IncomingEvent) (es : List IncomingEvent) :
    broadcastFrom n (e :: es) =
      { «Type» := e.«Type», Data := e.Data, ID := n } :: broadcastFrom (n + 1) es := rfl

/-- Effect of a sequence of chat-origin events when every client has room
for all of them: each client's queue receives the whole broadcast
sequence in order, and the counter advances once per event. -/
theorem run_inboxEvs (cap : Nat) :
    ∀ (es : List IncomingEvent) (s : Executor),
      (∀ c ∈ s.clients, c.inbox.length + es.length ≤ cap) →
      run cap s (es.map .inboxEv) =
        { s with
          clients := s.clients.map fun c =>
            { c with inbox := c.inbox ++ broadcastFrom s.counter es },
          counter := s.counter + es.length } := by
  intro es
  induction es with
  | nil =>
    intro s h
    simp [run, broadcastFrom]
  | cons e es ih =>
    intro s h
    rw [List.map_cons, run_cons,
      step_inbox_all_room cap e s (fun c hc => by have := h c hc; simp at this; omega)]
    rw [ih]
    · have hfun : ∀ c ∈ s.clients,
          ((fun c : clientInfo => { c with inbox := c.inbox ++ broadcastFrom (s.counter + 1) es }) ∘
            (fun c : clientInfo => { c with inbox :=
              c.inbox ++ [{ «Type» := e.«Type», Data := e.Data, ID := s.counter }] })) c =
          { c with inbox :=
            c.inbox ++ ({ «Type» := e.«Type», Data := e.Data, ID := s.counter } : Message) ::
              broadcastFrom (s.counter + 1) es } := by
        intro c _
        simp [Function.comp]
      simp only [List.map_map, broadcastFrom_cons]
      rw [List.map_congr_left hfun]
      simp only [List.length_cons]
      have hcnt : s.counter + 1 + (es.length : Int) =
          s.counter + ((es.length + 1 : Nat) : Int) := by
        push_cast
        ring
      rw [hcnt]
    · intro c hc
      rcases List.mem_map.mp hc with ⟨c0, hc0, rfl⟩
      have := h c0 hc0
      simp at this ⊢
      omega

theorem broadcastFrom_map_ID :
    ∀ (es : List IncomingEvent) (n : Int),
      (broadcastFrom n es).map Message.ID =
        (List.range es.length).map (fun i : Nat => n + (i : Int)) := by
  intro es
  induction es with
  | nil => intro n; simp [broadcastFrom]
  | cons e es ih =>
    intro n
    rw [broadcastFrom_cons, List.map_cons, ih, List.length_cons, List.range_succ_eq_map,
      List.map_cons, List.map_map]
    congr 1
    · simp
    · apply List.map_congr_left
      intro i _
      simp only [Function.comp_apply]
      push_cast
      ring

/-- C1: starting from a fresh executor, after `K` registrations a
sequence of chat-origin events that fits into every queue (capacity at
least its length) is delivered to all `K` clients: each client's queue
holds exactly those events, in processing order, wrapped with IDs
`0, 1, 2, ...` — strictly increasing from 0, one fresh ID per accepted
event, the counter ending at the event count. -/
theorem broadcast_all_delivered (cap K : Nat) (es : List IncomingEvent)
    (hcap : es.length ≤ cap) :
    (run cap initExecutor (List.replicate K .clientReq ++ es.map .inboxEv)).clients.length
        = K ∧
    (∀ c ∈ (run cap initExecutor (List.replicate K .clientReq ++ es.map .inboxEv)).clients,
      c.inbox = broadcastFrom 0 es) ∧
    (∀ c ∈ (run cap initExecutor (List.replicate K .clientReq ++ es.map .inboxEv)).clients,
      c.inbox.map Message.ID = (List.range es.length).map Int.ofNat) ∧
    (run cap initExecutor (List.replicate K .clientReq ++ es.map .inboxEv)).counter
        = es.length := by
  rw [run_append, run_clientReqs, run_inboxEvs]
  · refine ⟨by simp [initExecutor], ?_, ?_, by simp [initExecutor]⟩
    · intro c hc
      simp only [initExecutor, List.nil_append] at hc
      rcases List.mem_map.mp hc with ⟨c0, hc0, rfl⟩
      rcases List.mem_map.mp hc0 with ⟨i, _, rfl⟩
      simp
    · intro c hc
      simp only [initExecutor, List.nil_append] at hc
      rcases List.mem_map.mp hc with ⟨c0, hc0, rfl⟩
      rcases List.mem_map.mp hc0 with ⟨i, _, rfl⟩
      simp only [List.nil_append]
      rw [broadcastFrom_map_ID]
      apply List.map_congr_left
      intro i _
      simp
  · intro c hc
    simp only [initExecutor, List.nil_append] at hc
    rcases List.mem_map.mp hc with ⟨i, _, rfl⟩
    simpa using hcap

/-- Witness for C1: two clients, two events, capacity 8. -/
theorem broadcast_all_delivered_witness :
    ([({ «Type» := "message", Data := [("body", "hi")] } : IncomingEvent),
      { «Type» := "m2", Data := [] }].length ≤ 8) ∧
    ((run 8 initExecutor (List.replicate 2 .clientReq ++
        ([({ «Type» := "message", Data := [("body", "hi")] } : IncomingEvent),
          { «Type» := "m2", Data := [] }]).map .inboxEv)).clients.length = 2 ∧
      (∀ c ∈ (run 8 initExecutor (List.replicate 2 .clientReq ++
          ([({ «Type» := "message", Data := [("body", "hi")] } : IncomingEvent),
            { «Type» := "m2", Data := [] }]).map .inboxEv)).clients,
        c.inbox = broadcastFrom 0
          [({ «Type» := "message", Data := [("body", "hi")] } : IncomingEvent),
            { «Type» := "m2", Data := [] }]) ∧
      (∀ c ∈ (run 8 initExecutor (List.replicate 2 .clientReq ++
          ([({ «Type» := "message", Data := [("body", "hi")] } : IncomingEvent),
            { «Type» := "m2", Data := [] }]).map .inboxEv)).clients,
        c.inbox.map Message.ID =
          (List.range ([({ «Type» := "message", Data := [("body", "hi")] } : IncomingEvent),
            { «Type» := "m2", Data := [] }]).length).map Int.ofNat) ∧
      (run 8 initExecutor (List.replicate 2 .clientReq ++
          ([({ «Type» := "message", Data := [("body", "hi")] } : IncomingEvent),
            { «Type» := "m2", Data := [] }]).map .inboxEv)).counter =
        ([({ «Type» := "message", Data := [("body", "hi")] } : IncomingEvent),
          { «Type» := "m2", Data := [] }]).length) :=
  ⟨by decide,
    broadcast_all_delivered 8 2
      [{ «Type» := "message", Data := [("body", "hi")] }, { «Type» := "m2", Data := [] }]
      (by decide)⟩

/-! ### Pruned clients never come back -/

theorem sendMessage_cids_subset (cap : Nat) (msg : Message) (s : Executor) (id : Nat)
    (hid : id ∈ (sendMessage cap msg s).clients.map clientInfo.cid) :
    id ∈ s.clients.map clientInfo.cid := by
  rw [sendMessage_spec] at hid
  simp only at hid
  rcases List.mem_map.mp hid with ⟨c, hc, rfl⟩
  rcases List.mem_map.mp hc with ⟨c0, hc0, rfl⟩
  exact List.mem_map.mpr ⟨c0, List.mem_of_mem_filter hc0, rfl⟩

theorem sendMessage_nextCid (cap : Nat) (msg : Message) (s : Executor) :
    (sendMessage cap msg s).nextCid = s.nextCid := by
  rw [sendMessage_spec]

theorem step_preserves_out (cap : Nat) (ev : LoopEvent) (s : Executor) (id : Nat)
    (hout : id ∉ s.clients.map clientInfo.cid) (hlt : id < s.nextCid) :
    id ∉ (step cap s ev).clients.map clientInfo.cid ∧ id < (step cap s ev).nextCid := by
  cases ev with
  | inboxEv e =>
    refine ⟨fun hmem => hout (sendMessage_cids_subset cap
      { «Type» := e.«Type», Data := e.Data, ID := s.counter } s id ?_), ?_⟩
    · simpa [step] using hmem
    · simpa [step, sendMessage_nextCid] using hlt
  | cmdEv c => exact ⟨hout, hlt⟩
  | clientReq =>
    constructor
    · intro hmem
      simp only [step, List.map_append, List.map_cons, List.map_nil,
        List.mem_append, List.mem_cons, List.not_mem_nil] at hmem
      rcases hmem with h | h
      · exact hout h
      · rcases h with h | h
        · omega
        · exact h.elim
    · simp only [step]
      omega
  | outboxEv m => exact ⟨hout, hlt⟩

theorem run_preserves_out (cap : Nat) (id : Nat) :
    ∀ (evs : List LoopEvent) (s : Executor),
      id ∉ s.clients.map clientInfo.cid → id < s.nextCid →
      id ∉ (run cap s evs).clients.map clientInfo.cid := by
  intro evs
  induction evs with
  | nil => intro s hout _; exact hout
  | cons ev evs ih =>
    intro s hout hlt
    rw [run_cons]
    obtain ⟨h1, h2⟩ := step_preserves_out cap ev s id hout hlt
    exact ih _ h1 h2

/-- C3: on a broadcast, every registered client whose queue is full is
removed from the registry (its identity is gone from the client list),
its inbox is closed exactly once (one new entry in the close log), and it
receives nothing from any later trace of loop events; the surviving
clients are exactly those with room, in order, each receiving the
message. -/
theorem full_client_pruned (cap : Nat) (msg : Message) (s : Executor)
    (hgood : goodState s) :
    (∀ c ∈ s.clients, cap ≤ c.inbox.length →
      c.cid ∉ (sendMessage cap msg s).clients.map clientInfo.cid ∧
      (sendMessage cap msg s).closed.count c.cid = 1 ∧
      ∀ evs, c.cid ∉ (run cap (sendMessage cap msg s) evs).clients.map clientInfo.cid) ∧
    (sendMessage cap msg s).clients =
      (s.clients.filter fun c => c.inbox.length < cap).map
        (fun c => { c with inbox := c.inbox ++ [msg] }) := by
  obtain ⟨hnodup, hbound, hnclosed⟩ := hgood
  refine ⟨?_, by rw [sendMessage_spec]⟩
  intro c hc hfull
  have hcfull : c ∈ s.clients.filter (fun c => decide (cap ≤ c.inbox.length)) :=
    List.mem_filter.mpr ⟨hc, by simpa using hfull⟩
  have hnotmem : c.cid ∉
      ((s.clients.filter fun c => c.inbox.length < cap).map clientInfo.cid) := by
    intro hmem
    rcases List.mem_map.mp hmem with ⟨c', hc', heq⟩
    have hc'mem : c' ∈ s.clients := List.mem_of_mem_filter hc'
    have hcc : c' = c := List.inj_on_of_nodup_map hnodup hc'mem hc heq
    subst hcc
    have hroom := List.of_mem_filter hc'
    simp at hroom
    omega
  have hout : c.cid ∉ (sendMessage cap msg s).clients.map clientInfo.cid := by
    simp only [sendMessage_spec]
    intro hmem
    apply hnotmem
    rcases List.mem_map.mp hmem with ⟨c', hc', heq⟩
    rcases List.mem_map.mp hc' with ⟨c0, hc0, rfl⟩
    exact List.mem_map.mpr ⟨c0, hc0, heq⟩
  refine ⟨hout, ?_, ?_⟩
  · simp only [sendMessage_spec]
    rw [List.count_append]
    have h0 : s.closed.count c.cid = 0 := List.count_eq_zero.mpr (hnclosed c hc)
    have hfiltN :
        ((s.clients.filter fun c => cap ≤ c.inbox.length).map clientInfo.cid).Nodup :=
      hnodup.sublist ((List.filter_sublist s.clients).map clientInfo.cid)
    have hmem1 : c.cid ∈ (s.clients.filter fun c => cap ≤ c.inbox.length).map clientInfo.cid :=
      List.mem_map.mpr ⟨c, hcfull, rfl⟩
    rw [h0, List.count_eq_one_of_mem hfiltN hmem1]
  · intro evs
    apply run_preserves_out cap c.cid evs _ hout
    rw [sendMessage_nextCid]
    exact hbound c hc

/-- Witness for C3: one registered client whose empty queue is already
full at capacity 0, pruned by a concrete broadcast. -/
theorem full_client_pruned_witness :
    goodState oneClientState ∧
    ((∀ c ∈ oneClientState.clients, 0 ≤ c.inbox.length →
      c.cid ∉ (sendMessage 0 probeMsg oneClientState).clients.map clientInfo.cid ∧
      (sendMessage 0 probeMsg oneClientState).closed.count c.cid = 1 ∧
      ∀ evs, c.cid ∉
        (run 0 (sendMessage 0 probeMsg oneClientState) evs).clients.map clientInfo.cid) ∧
    (sendMessage 0 probeMsg oneClientState).clients =
      (oneClientState.clients.filter fun c => c.inbox.length < 0).map
        (fun c => { c with inbox := c.inbox ++ [probeMsg] })) :=
  ⟨by decide, full_client_pruned 0 probeMsg oneClientState (by decide)⟩
